import Mathlib

/-!
Verification of the mlpack feature-scaling classes `MeanNormalization`
(src/mlpack/core/data/scaler_methods/meannormalization.hpp) and `MinMaxScaler`
(src/mlpack/core/data/scaler_methods/minmaxscaler.hpp).

The C++ code is a pair of header-only classes operating on dense Armadillo
matrices whose rows are features and whose columns are observations.  We embed
them shallowly: a matrix is a list of rows, each row a list of rationals
(exact arithmetic stands in for the numeric element type; Lean's total
division, with `x / 0 = 0`, gives the division the exact-arithmetic reading
under which the zero-scale guard of the code catches degenerate features).
Each C++ method mutates only the statistic fields of its object and its output
parameter, so we model a method as a function returning the new object state
paired with the output matrix.

The rational idealization and the double-precision program part ways at one
point: `MinMaxScaler::Transform` divides before its zero guard, so on a
degenerate feature (row min equal to row max) the double quotient is an
infinity, not the 0 the guard tests for.  A second small model, `FP`, captures
IEEE-754 binary64 semantics for exactly the operations that computation
performs (finite values carried as exact rationals — every number in the
evaluations below is representable and every operation exact — plus the two
infinities and NaN), and `MinMaxScalerFP.Transform` re-reads the same source
over it, so the divergent behavior can be proved rather than assumed away.
-/

namespace mlpack

namespace data

/-- Dense matrix: list of feature rows, each row a list of observations. -/
abbrev Mat := List (List ℚ)

/-- Row minimum, modelling `arma::min(input, 1)` applied to one feature row
(value on an empty row is irrelevant junk, as in Armadillo). -/
def rowMin : List ℚ → ℚ
  | [] => 0
  | x :: xs => xs.foldl min x

/-- Row maximum, modelling `arma::max(input, 1)` applied to one feature row. -/
def rowMax : List ℚ → ℚ
  | [] => 0
  | x :: xs => xs.foldl max x

/-- Row mean, modelling `arma::mean(input, 1)` applied to one feature row. -/
def rowMean (r : List ℚ) : ℚ := r.sum / (r.length : ℚ)

/-- The body of the zero-handling loop of both classes: an entry of the scale
vector that is exactly zero is replaced by 1. -/
def fixZero1 (v : ℚ) : ℚ := if v = 0 then 1 else v

/-- The zero-handling loop (`for i ...: if (scale(i) == 0) scale(i) = 1;`). -/
def fixZeros (s : List ℚ) : List ℚ := s.map fixZero1

/-- State of a `MeanNormalization` object: the four per-feature statistic
vectors (`arma::colvec` fields of the C++ class). -/
structure MeanNormalization where
  itemMean : List ℚ
  itemMin : List ℚ
  itemMax : List ℚ
  scale : List ℚ

/-- A freshly constructed `MeanNormalization`: all statistic vectors empty. -/
def MeanNormalization.init : MeanNormalization :=
  MeanNormalization.mk [] [] [] []

/-- `MeanNormalization::Transform(input, output)`.  Computes the per-row
mean/min/max vectors, the zero-fixed scale vector `itemMax - itemMin`, and
writes `output(i, j) = (input(i, j) - itemMean(i)) / scale(i)`.  All statistic
fields are overwritten, so the prior state is irrelevant. -/
def MeanNormalization.Transform (_m : MeanNormalization) (input : Mat) :
    MeanNormalization × Mat :=
  let itemMean := input.map rowMean
  let itemMin := input.map rowMin
  let itemMax := input.map rowMax
  let scale := fixZeros (List.zipWith (fun a b => a - b) itemMax itemMin)
  let output := List.zipWith (fun ms row => row.map (fun x => (x - ms.1) / ms.2))
    (List.zip itemMean scale) input
  (MeanNormalization.mk itemMean itemMin itemMax scale, output)

/-- The double loop of `MeanNormalization::InverseTransform`: row `i` of the
input is mapped through `x * scale(i) + itemMean(i)`; walking the statistic
vectors by `headD`/`tail` realises the index `i`, with junk `0` where the C++
read `scale(i)` would be out of bounds. -/
def invRowsMean : List ℚ → List ℚ → Mat → Mat
  | _, _, [] => []
  | means, scales, row :: rows =>
      row.map (fun x => x * scales.headD 0 + means.headD 0) ::
        invRowsMean means.tail scales.tail rows

/-- `MeanNormalization::InverseTransform(input, output)`: writes
`output(i, j) = input(i, j) * scale(i) + itemMean(i)` and leaves every field
of the object untouched. -/
def MeanNormalization.InverseTransform (m : MeanNormalization) (input : Mat) :
    MeanNormalization × Mat :=
  (m, invRowsMean m.itemMean m.scale input)

/-- Accessor `MeanNormalization::ItemMean()`. -/
def MeanNormalization.ItemMean (m : MeanNormalization) : List ℚ := m.itemMean

/-- Accessor `MeanNormalization::ItemMin()`. -/
def MeanNormalization.ItemMin (m : MeanNormalization) : List ℚ := m.itemMin

/-- Accessor `MeanNormalization::ItemMax()`. -/
def MeanNormalization.ItemMax (m : MeanNormalization) : List ℚ := m.itemMax

/-- Accessor `MeanNormalization::Scale()`. -/
def MeanNormalization.Scale (m : MeanNormalization) : List ℚ := m.scale

/-- State of a `MinMaxScaler` object: statistic vectors plus the configured
target range `[scalemin, scalemax]`. -/
structure MinMaxScaler where
  itemMin : List ℚ
  itemMax : List ℚ
  scale : List ℚ
  scalemin : ℚ
  scalemax : ℚ

/-- The `MinMaxScaler(min, max)` constructor: stores the range, statistic
vectors start empty.  The C++ defaults are `min = 0`, `max = 1`. -/
def MinMaxScaler.init (mn mx : ℚ) : MinMaxScaler :=
  MinMaxScaler.mk [] [] [] mn mx

/-- `MinMaxScaler::Transform(input, output)`.  Computes the per-row min/max
vectors, the zero-fixed scale vector `(scalemax - scalemin) / (itemMax - itemMin)`,
and writes `output(i, j) = scale(i) * input(i, j) + scalemin - itemMin(i) * scale(i)`. -/
def MinMaxScaler.Transform (s : MinMaxScaler) (input : Mat) :
    MinMaxScaler × Mat :=
  let itemMin := input.map rowMin
  let itemMax := input.map rowMax
  let scale := fixZeros (List.zipWith
    (fun a b => (s.scalemax - s.scalemin) / (a - b)) itemMax itemMin)
  let output := List.zipWith
    (fun ms row => row.map (fun x => ms.2 * x + s.scalemin - ms.1 * ms.2))
    (List.zip itemMin scale) input
  (MinMaxScaler.mk itemMin itemMax scale s.scalemin s.scalemax, output)

/-- The double loop of `MinMaxScaler::InverseTransform`: row `i` of the input
is mapped through `(x - scalemin + itemMin(i) * scale(i)) / scale(i)`. -/
def invRowsMinMax (smin : ℚ) : List ℚ → List ℚ → Mat → Mat
  | _, _, [] => []
  | mins, scales, row :: rows =>
      row.map (fun x => (x - smin + mins.headD 0 * scales.headD 0) / scales.headD 0) ::
        invRowsMinMax smin mins.tail scales.tail rows

/-- `MinMaxScaler::InverseTransform(input, output)`: writes
`output(i, j) = (input(i, j) - scalemin + itemMin(i) * scale(i)) / scale(i)`
and leaves every field of the object untouched. -/
def MinMaxScaler.InverseTransform (s : MinMaxScaler) (input : Mat) :
    MinMaxScaler × Mat :=
  (s, invRowsMinMax s.scalemin s.itemMin s.scale input)

/-- Accessor `MinMaxScaler::ItemMin()`. -/
def MinMaxScaler.ItemMin (s : MinMaxScaler) : List ℚ := s.itemMin

/-- Accessor `MinMaxScaler::ItemMax()`. -/
def MinMaxScaler.ItemMax (s : MinMaxScaler) : List ℚ := s.itemMax

/-- Accessor `MinMaxScaler::Scale()`. -/
def MinMaxScaler.Scale (s : MinMaxScaler) : List ℚ := s.scale

/-- Accessor `MinMaxScaler::ScaleMin()`. -/
def MinMaxScaler.ScaleMin (s : MinMaxScaler) : ℚ := s.scalemin

/-- Accessor `MinMaxScaler::ScaleMax()`. -/
def MinMaxScaler.ScaleMax (s : MinMaxScaler) : ℚ := s.scalemax

/-- Per-row action of `MeanNormalization::Transform`: the statistic vectors are
the row-wise maps of `rowMean`/`rowMin`/`rowMax`, so row `i` of the output is
row `i` of the input mapped through `(x - mean_i) / scale_i`. -/
def meanRowT (r : List ℚ) : List ℚ :=
  r.map (fun x => (x - rowMean r) / fixZero1 (rowMax r - rowMin r))

/-- Per-row action of `MinMaxScaler::Transform` for a scaler with range
`[smin, smax]`. -/
def minmaxRowT (smin smax : ℚ) (r : List ℚ) : List ℚ :=
  r.map (fun x =>
    fixZero1 ((smax - smin) / (rowMax r - rowMin r)) * x + smin
      - rowMin r * fixZero1 ((smax - smin) / (rowMax r - rowMin r)))

/-- IEEE-754 binary64 value as far as the computations at hand need it: a
finite value (carried as an exact rational; every number appearing in the
evaluations below is exactly representable in binary64 and every operation on
them exact), positive infinity, negative infinity, or NaN.  The signed zero is
collapsed to 0, which agrees with the cases arising here (`x - x` is `+0` in
round-to-nearest). -/
inductive FP where
  | finite : ℚ → FP
  | inf : FP
  | neginf : FP
  | nan : FP
deriving DecidableEq

/-- IEEE-754 negation. -/
def FP.neg : FP → FP
  | FP.finite a => FP.finite (-a)
  | FP.inf => FP.neginf
  | FP.neginf => FP.inf
  | FP.nan => FP.nan

/-- IEEE-754 addition (exact on the finite values used here). -/
def FP.add : FP → FP → FP
  | FP.nan, _ => FP.nan
  | _, FP.nan => FP.nan
  | FP.inf, FP.neginf => FP.nan
  | FP.neginf, FP.inf => FP.nan
  | FP.inf, _ => FP.inf
  | _, FP.inf => FP.inf
  | FP.neginf, _ => FP.neginf
  | _, FP.neginf => FP.neginf
  | FP.finite a, FP.finite b => FP.finite (a + b)

/-- IEEE-754 subtraction. -/
def FP.sub (x y : FP) : FP := FP.add x (FP.neg y)

/-- IEEE-754 multiplication: an infinity times a nonzero finite value keeps
the magnitude infinite; an infinity times zero is NaN. -/
def FP.mul : FP → FP → FP
  | FP.nan, _ => FP.nan
  | _, FP.nan => FP.nan
  | FP.inf, FP.inf => FP.inf
  | FP.inf, FP.neginf => FP.neginf
  | FP.neginf, FP.inf => FP.neginf
  | FP.neginf, FP.neginf => FP.inf
  | FP.inf, FP.finite b =>
      if b = 0 then FP.nan else if 0 < b then FP.inf else FP.neginf
  | FP.finite a, FP.inf =>
      if a = 0 then FP.nan else if 0 < a then FP.inf else FP.neginf
  | FP.neginf, FP.finite b =>
      if b = 0 then FP.nan else if 0 < b then FP.neginf else FP.inf
  | FP.finite a, FP.neginf =>
      if a = 0 then FP.nan else if 0 < a then FP.neginf else FP.inf
  | FP.finite a, FP.finite b => FP.finite (a * b)

/-- IEEE-754 division: a nonzero finite value divided by (unsigned) zero is a
signed infinity, zero by zero is NaN, infinity by infinity is NaN. -/
def FP.div : FP → FP → FP
  | FP.nan, _ => FP.nan
  | _, FP.nan => FP.nan
  | FP.inf, FP.inf => FP.nan
  | FP.inf, FP.neginf => FP.nan
  | FP.neginf, FP.inf => FP.nan
  | FP.neginf, FP.neginf => FP.nan
  | FP.inf, FP.finite b => if 0 ≤ b then FP.inf else FP.neginf
  | FP.neginf, FP.finite b => if 0 ≤ b then FP.neginf else FP.inf
  | FP.finite _, FP.inf => FP.finite 0
  | FP.finite _, FP.neginf => FP.finite 0
  | FP.finite a, FP.finite b =>
      if b = 0 then (if a = 0 then FP.nan else if 0 < a then FP.inf else FP.neginf)
      else FP.finite (a / b)

/-- IEEE comparison `x < y` as used by Armadillo's extrema scans: any
comparison involving NaN is false. -/
def FP.blt : FP → FP → Bool
  | FP.nan, _ => false
  | _, FP.nan => false
  | FP.neginf, FP.neginf => false
  | FP.neginf, _ => true
  | _, FP.neginf => false
  | FP.inf, _ => false
  | FP.finite _, FP.inf => true
  | FP.finite a, FP.finite b => if a < b then true else false

/-- Comparison-based binary minimum (keeps the first argument on ties and on
incomparable NaN operands, as a scan does). -/
def minFP (a b : FP) : FP := if FP.blt b a then b else a

/-- Comparison-based binary maximum. -/
def maxFP (a b : FP) : FP := if FP.blt a b then b else a

/-- Row minimum over doubles, modelling `arma::min(input, 1)` on one row
(faithful on NaN-free rows, which is all this file evaluates). -/
def rowMinFP : List FP → FP
  | [] => FP.finite 0
  | x :: xs => xs.foldl minFP x

/-- Row maximum over doubles. -/
def rowMaxFP : List FP → FP
  | [] => FP.finite 0
  | x :: xs => xs.foldl maxFP x

/-- The zero-handling loop body over doubles: `scale(i) == 0` compares the
double against `0.0` (false for infinities and NaN). -/
def fixZero1FP (v : FP) : FP := if v = FP.finite 0 then FP.finite 1 else v

/-- The zero-handling loop of `MinMaxScaler::Transform` over doubles. -/
def fixZerosFP (s : List FP) : List FP := s.map fixZero1FP

/-- State of a `MinMaxScaler` object with its fields read at double
precision. -/
structure MinMaxScalerFP where
  itemMin : List FP
  itemMax : List FP
  scale : List FP
  scalemin : FP
  scalemax : FP

/-- The `MinMaxScaler(min, max)` constructor over doubles. -/
def MinMaxScalerFP.init (mn mx : FP) : MinMaxScalerFP :=
  MinMaxScalerFP.mk [] [] [] mn mx

/-- `MinMaxScaler::Transform(input, output)` with every arithmetic operation
read at IEEE binary64 semantics: the scale vector is
`(scalemax - scalemin) / (itemMax - itemMin)` computed by double division
before the zero guard runs, and
`output(i, j) = scale(i) * input(i, j) + scalemin - itemMin(i) * scale(i)`. -/
def MinMaxScalerFP.Transform (s : MinMaxScalerFP) (input : List (List FP)) :
    MinMaxScalerFP × List (List FP) :=
  let itemMin := input.map rowMinFP
  let itemMax := input.map rowMaxFP
  let scale := fixZerosFP (List.zipWith
    (fun a b => FP.div (FP.sub s.scalemax s.scalemin) (FP.sub a b)) itemMax itemMin)
  let output := List.zipWith
    (fun ms row => row.map (fun x =>
      FP.sub (FP.add (FP.mul ms.2 x) s.scalemin) (FP.mul ms.1 ms.2)))
    (List.zip itemMin scale) input
  (MinMaxScalerFP.mk itemMin itemMax scale s.scalemin s.scalemax, output)

theorem fixZero1_ne_zero (v : ℚ) : fixZero1 v ≠ 0 := by
  unfold fixZero1
  split
  · norm_num
  · assumption

theorem fixZero1_of_ne (v : ℚ) (h : v ≠ 0) : fixZero1 v = v := if_neg h

theorem fixZero1_zero : fixZero1 0 = 1 := if_pos rfl

theorem FP.inf_eq_finite_iff (q : ℚ) : (FP.inf = FP.finite q) ↔ False :=
  ⟨fun h => FP.noConfusion h, False.elim⟩

theorem FP.nan_eq_finite_iff (q : ℚ) : (FP.nan = FP.finite q) ↔ False :=
  ⟨fun h => FP.noConfusion h, False.elim⟩

theorem FP.finite_eq_finite_iff (p q : ℚ) : (FP.finite p = FP.finite q) ↔ p = q :=
  ⟨fun h => FP.noConfusion h id, fun h => h ▸ rfl⟩

theorem fixZero1FP_ne_zero (v : FP) : fixZero1FP v ≠ FP.finite 0 := by
  unfold fixZero1FP
  split
  · rw [Ne, FP.finite_eq_finite_iff]
    norm_num
  · assumption

theorem foldl_min_le_init (l : List ℚ) (x : ℚ) : l.foldl min x ≤ x := by
  induction l generalizing x with
  | nil => exact le_refl x
  | cons a l ih => exact le_trans (ih (min x a)) (min_le_left x a)

theorem foldl_min_le_mem (l : List ℚ) (x a : ℚ) (ha : a ∈ l) : l.foldl min x ≤ a := by
  induction l generalizing x with
  | nil => cases ha
  | cons b l ih =>
      rcases List.mem_cons.mp ha with h | h
      · subst h
        exact le_trans (foldl_min_le_init l (min x a)) (min_le_right x a)
      · exact ih (min x b) h

theorem init_le_foldl_max (l : List ℚ) (x : ℚ) : x ≤ l.foldl max x := by
  induction l generalizing x with
  | nil => exact le_refl x
  | cons a l ih => exact le_trans (le_max_left x a) (ih (max x a))

theorem mem_le_foldl_max (l : List ℚ) (x a : ℚ) (ha : a ∈ l) : a ≤ l.foldl max x := by
  induction l generalizing x with
  | nil => cases ha
  | cons b l ih =>
      rcases List.mem_cons.mp ha with h | h
      · subst h
        exact le_trans (le_max_right x a) (init_le_foldl_max l (max x a))
      · exact ih (max x b) h

theorem rowMin_le_of_mem (r : List ℚ) (x : ℚ) (hx : x ∈ r) : rowMin r ≤ x := by
  cases r with
  | nil => cases hx
  | cons a l =>
      rcases List.mem_cons.mp hx with h | h
      · subst h
        exact foldl_min_le_init l x
      · exact foldl_min_le_mem l a x h

theorem le_rowMax_of_mem (r : List ℚ) (x : ℚ) (hx : x ∈ r) : x ≤ rowMax r := by
  cases r with
  | nil => cases hx
  | cons a l =>
      rcases List.mem_cons.mp hx with h | h
      · subst h
        exact init_le_foldl_max l x
      · exact mem_le_foldl_max l a x h

theorem foldl_min_map (f : ℚ → ℚ) (hf : ∀ a b, f (min a b) = min (f a) (f b)) :
    ∀ (l : List ℚ) (x : ℚ), (l.map f).foldl min (f x) = f (l.foldl min x)
  | [], _ => rfl
  | a :: l, x => by
      simp only [List.map_cons, List.foldl_cons]
      rw [← hf, foldl_min_map f hf l (min x a)]

theorem foldl_max_map (f : ℚ → ℚ) (hf : ∀ a b, f (max a b) = max (f a) (f b)) :
    ∀ (l : List ℚ) (x : ℚ), (l.map f).foldl max (f x) = f (l.foldl max x)
  | [], _ => rfl
  | a :: l, x => by
      simp only [List.map_cons, List.foldl_cons]
      rw [← hf, foldl_max_map f hf l (max x a)]

theorem rowMin_map (f : ℚ → ℚ) (hf : ∀ a b, f (min a b) = min (f a) (f b))
    (r : List ℚ) (hr : r ≠ []) : rowMin (r.map f) = f (rowMin r) := by
  cases r with
  | nil => exact absurd rfl hr
  | cons a l =>
      simp only [List.map_cons, rowMin]
      exact foldl_min_map f hf l a

theorem rowMax_map (f : ℚ → ℚ) (hf : ∀ a b, f (max a b) = max (f a) (f b))
    (r : List ℚ) (hr : r ≠ []) : rowMax (r.map f) = f (rowMax r) := by
  cases r with
  | nil => exact absurd rfl hr
  | cons a l =>
      simp only [List.map_cons, rowMax]
      exact foldl_max_map f hf l a

theorem map_eq_self (f : ℚ → ℚ) (l : List ℚ) (h : ∀ x, f x = x) : l.map f = l := by
  induction l with
  | nil => rfl
  | cons a l ih => rw [List.map_cons, h a, ih]

theorem getD_map_lt {α β : Type} (f : α → β) (l : List α) (i : ℕ) (h : i < l.length)
    (d : β) (e : α) : (l.map f).getD i d = f (l.getD i e) := by
  induction l generalizing i with
  | nil => exact absurd h (Nat.not_lt_zero i)
  | cons a l ih =>
      cases i with
      | zero => rfl
      | succ n =>
          simp only [List.map_cons, List.getD_cons_succ]
          exact ih n (Nat.succ_lt_succ_iff.mp h)

theorem getD_map_length {α β : Type} (f : List α → List β) (M : List (List α))
    (hf : ∀ r, (f r).length = r.length) (i : ℕ) :
    ((M.map f).getD i []).length = ((M.getD i []).length) := by
  induction M generalizing i with
  | nil => rfl
  | cons a M ih =>
      cases i with
      | zero => exact hf a
      | succ n =>
          simp only [List.map_cons, List.getD_cons_succ]
          exact ih n

theorem meanN_scale_eq (m : MeanNormalization) (M : Mat) :
    (m.Transform M).1.scale = M.map (fun r => fixZero1 (rowMax r - rowMin r)) := by
  show fixZeros (List.zipWith (fun a b => a - b) (M.map rowMax) (M.map rowMin)) = _
  induction M with
  | nil => rfl
  | cons a M ih =>
      simp only [List.map_cons, List.zipWith_cons_cons, fixZeros] at ih ⊢
      rw [ih]

theorem meanN_out_eq (m : MeanNormalization) (M : Mat) :
    (m.Transform M).2 = M.map meanRowT := by
  show List.zipWith _
    (List.zip (M.map rowMean)
      (fixZeros (List.zipWith (fun a b => a - b) (M.map rowMax) (M.map rowMin)))) M = _
  induction M with
  | nil => rfl
  | cons a M ih =>
      simp only [List.map_cons, List.zipWith_cons_cons, List.zip_cons_cons, fixZeros]
        at ih ⊢
      rw [ih]
      rfl

theorem minmax_scale_eq (s : MinMaxScaler) (M : Mat) :
    (s.Transform M).1.scale
      = M.map (fun r => fixZero1 ((s.scalemax - s.scalemin) / (rowMax r - rowMin r))) := by
  show fixZeros (List.zipWith (fun a b => (s.scalemax - s.scalemin) / (a - b))
    (M.map rowMax) (M.map rowMin)) = _
  induction M with
  | nil => rfl
  | cons a M ih =>
      simp only [List.map_cons, List.zipWith_cons_cons, fixZeros] at ih ⊢
      rw [ih]

theorem minmax_out_eq (s : MinMaxScaler) (M : Mat) :
    (s.Transform M).2 = M.map (minmaxRowT s.scalemin s.scalemax) := by
  show List.zipWith _
    (List.zip (M.map rowMin)
      (fixZeros (List.zipWith (fun a b => (s.scalemax - s.scalemin) / (a - b))
        (M.map rowMax) (M.map rowMin)))) M = _
  induction M with
  | nil => rfl
  | cons a M ih =>
      simp only [List.map_cons, List.zipWith_cons_cons, List.zip_cons_cons, fixZeros]
        at ih ⊢
      rw [ih]
      rfl

theorem invRowsMean_map (g1 g2 : List ℚ → ℚ) (t : List ℚ → List ℚ) (M : Mat)
    (h : ∀ r ∈ M, ((t r).map (fun x => x * g2 r + g1 r)) = r) :
    invRowsMean (M.map g1) (M.map g2) (M.map t) = M := by
  induction M with
  | nil => rfl
  | cons a M ih =>
      simp only [List.map_cons, invRowsMean, List.headD_cons, List.tail_cons]
      rw [h a (List.mem_cons_self a M), ih (fun r hr => h r (List.mem_cons_of_mem a hr))]

theorem invRowsMinMax_map (smin : ℚ) (g1 g2 : List ℚ → ℚ) (t : List ℚ → List ℚ) (M : Mat)
    (h : ∀ r ∈ M, ((t r).map (fun x => (x - smin + g1 r * g2 r) / g2 r)) = r) :
    invRowsMinMax smin (M.map g1) (M.map g2) (M.map t) = M := by
  induction M with
  | nil => rfl
  | cons a M ih =>
      simp only [List.map_cons, invRowsMinMax, List.headD_cons, List.tail_cons]
      rw [h a (List.mem_cons_self a M), ih (fun r hr => h r (List.mem_cons_of_mem a hr))]

theorem meanRowT_inv (r : List ℚ) :
    (meanRowT r).map
      (fun x => x * fixZero1 (rowMax r - rowMin r) + rowMean r) = r := by
  unfold meanRowT
  rw [List.map_map]
  refine map_eq_self _ r (fun x => ?_)
  have hs := fixZero1_ne_zero (rowMax r - rowMin r)
  show (x - rowMean r) / fixZero1 (rowMax r - rowMin r) * fixZero1 (rowMax r - rowMin r)
      + rowMean r = x
  rw [div_mul_cancel₀ _ hs]
  ring

theorem minmaxRowT_inv (smin smax : ℚ) (r : List ℚ) :
    (minmaxRowT smin smax r).map
      (fun x => (x - smin + rowMin r * fixZero1 ((smax - smin) / (rowMax r - rowMin r)))
        / fixZero1 ((smax - smin) / (rowMax r - rowMin r))) = r := by
  unfold minmaxRowT
  rw [List.map_map]
  refine map_eq_self _ r (fun x => ?_)
  have hs := fixZero1_ne_zero ((smax - smin) / (rowMax r - rowMin r))
  show (fixZero1 ((smax - smin) / (rowMax r - rowMin r)) * x + smin
      - rowMin r * fixZero1 ((smax - smin) / (rowMax r - rowMin r)) - smin
      + rowMin r * fixZero1 ((smax - smin) / (rowMax r - rowMin r)))
      / fixZero1 ((smax - smin) / (rowMax r - rowMin r)) = x
  field_simp
  ring

theorem sum_map_center (r : List ℚ) (c s : ℚ) :
    (r.map (fun x => (x - c) / s)).sum = (r.sum - r.length * c) / s := by
  induction r with
  | nil => simp
  | cons a t ih =>
      simp only [List.map_cons, List.sum_cons, List.length_cons, ih, div_add_div_same]
      congr 1
      push_cast
      ring

theorem rowMean_meanRowT (r : List ℚ) : rowMean (meanRowT r) = 0 := by
  unfold meanRowT rowMean
  rw [List.length_map, sum_map_center]
  rcases eq_or_ne r [] with h | h
  · subst h
    simp
  · have hn : (r.length : ℚ) ≠ 0 := by
      simpa using fun hlen => h (List.length_eq_zero.mp hlen)
    rw [mul_div_cancel₀ r.sum hn]
    simp

theorem sum_of_constant (r : List ℚ) (c : ℚ) (h : ∀ x ∈ r, x = c) :
    r.sum = r.length * c := by
  induction r with
  | nil => simp
  | cons a t ih =>
      simp only [List.sum_cons, List.length_cons, h a (List.mem_cons_self a t),
        ih (fun x hx => h x (List.mem_cons_of_mem a hx))]
      push_cast
      ring

theorem rowMean_of_constant (r : List ℚ) (c : ℚ) (h : ∀ x ∈ r, x = c) (hr : r ≠ []) :
    rowMean r = c := by
  have hn : (r.length : ℚ) ≠ 0 := by
    simpa using fun hlen => hr (List.length_eq_zero.mp hlen)
  rw [rowMean, sum_of_constant r c h, mul_comm, mul_div_assoc, div_self hn, mul_one]

theorem eq_rowMin_of_deg (r : List ℚ) (x : ℚ) (h : rowMin r = rowMax r) (hx : x ∈ r) :
    x = rowMin r :=
  le_antisymm (h ▸ le_rowMax_of_mem r x hx) (rowMin_le_of_mem r x hx)

theorem invRowsMean_length (a b : List ℚ) (M : Mat) :
    (invRowsMean a b M).length = M.length := by
  induction M generalizing a b with
  | nil => rfl
  | cons r M ih =>
      simp only [invRowsMean, List.length_cons, ih]

theorem invRowsMean_getD_length (a b : List ℚ) (M : Mat) (i : ℕ) :
    ((invRowsMean a b M).getD i []).length = ((M.getD i []).length) := by
  induction M generalizing a b i with
  | nil => rfl
  | cons r M ih =>
      cases i with
      | zero => exact List.length_map r _
      | succ n =>
          simp only [invRowsMean, List.getD_cons_succ]
          exact ih _ _ n

theorem invRowsMinMax_length (smin : ℚ) (a b : List ℚ) (M : Mat) :
    (invRowsMinMax smin a b M).length = M.length := by
  induction M generalizing a b with
  | nil => rfl
  | cons r M ih =>
      simp only [invRowsMinMax, List.length_cons, ih]

theorem invRowsMinMax_getD_length (smin : ℚ) (a b : List ℚ) (M : Mat) (i : ℕ) :
    ((invRowsMinMax smin a b M).getD i []).length = ((M.getD i []).length) := by
  induction M generalizing a b i with
  | nil => rfl
  | cons r M ih =>
      cases i with
      | zero => exact List.length_map r _
      | succ n =>
          simp only [invRowsMinMax, List.getD_cons_succ]
          exact ih _ _ n

theorem minmaxRowT_range (smin smax : ℚ) (r : List ℚ) (hs : smin < smax)
    (hr : rowMin r < rowMax r) :
    (∀ x ∈ minmaxRowT smin smax r, smin ≤ x ∧ x ≤ smax) ∧
    rowMin (minmaxRowT smin smax r) = smin ∧
    rowMax (minmaxRowT smin smax r) = smax := by
  have hne : r ≠ [] := by
    intro h
    rw [h] at hr
    exact lt_irrefl _ hr
  have hq : (smax - smin) / (rowMax r - rowMin r) ≠ 0 :=
    div_ne_zero (sub_ne_zero.mpr (ne_of_gt hs)) (sub_ne_zero.mpr (ne_of_gt hr))
  set k := fixZero1 ((smax - smin) / (rowMax r - rowMin r)) with hk
  have hkq : k = (smax - smin) / (rowMax r - rowMin r) := fixZero1_of_ne _ hq
  have hkpos : 0 < k := by
    rw [hkq]
    exact div_pos (sub_pos.mpr hs) (sub_pos.mpr hr)
  have hkspan : k * (rowMax r - rowMin r) = smax - smin := by
    rw [hkq]
    exact div_mul_cancel₀ _ (sub_ne_zero.mpr (ne_of_gt hr))
  have hmono : ∀ a b : ℚ, a ≤ b →
      k * a + smin - rowMin r * k ≤ k * b + smin - rowMin r * k := by
    intro a b hab
    have := mul_le_mul_of_nonneg_left hab (le_of_lt hkpos)
    linarith
  have hfmin : ∀ a b : ℚ,
      k * min a b + smin - rowMin r * k
        = min (k * a + smin - rowMin r * k) (k * b + smin - rowMin r * k) := by
    intro a b
    rcases le_total a b with h | h
    · rw [min_eq_left h, min_eq_left (hmono a b h)]
    · rw [min_eq_right h, min_eq_right (hmono b a h)]
  have hfmax : ∀ a b : ℚ,
      k * max a b + smin - rowMin r * k
        = max (k * a + smin - rowMin r * k) (k * b + smin - rowMin r * k) := by
    intro a b
    rcases le_total a b with h | h
    · rw [max_eq_right h, max_eq_right (hmono a b h)]
    · rw [max_eq_left h, max_eq_left (hmono b a h)]
  have hvalmin : k * rowMin r + smin - rowMin r * k = smin := by ring
  have hvalmax : k * rowMax r + smin - rowMin r * k = smax := by
    have : k * rowMax r - rowMin r * k = k * (rowMax r - rowMin r) := by ring
    linarith [hkspan, this]
  refine ⟨?_, ?_, ?_⟩
  · intro x hx
    rcases List.mem_map.mp hx with ⟨y, hy, hxy⟩
    have h1 := hmono (rowMin r) y (rowMin_le_of_mem r y hy)
    have h2 := hmono y (rowMax r) (le_rowMax_of_mem r y hy)
    rw [hvalmin] at h1
    rw [hvalmax] at h2
    rw [← hxy] at *
    exact ⟨h1, h2⟩
  · rw [minmaxRowT, ← hk, rowMin_map _ hfmin r hne, hvalmin]
  · rw [minmaxRowT, ← hk, rowMax_map _ hfmax r hne, hvalmax]

/-- C1: for every well-formed dense matrix with at least one column whose every
row has `rowMin` strictly below `rowMax`, and any `MinMaxScaler` whose
`scalemax` differs from `scalemin`, `InverseTransform` applied to the result of
`Transform` on the same instance returns the original matrix exactly, for both
`MeanNormalization` and `MinMaxScaler`. -/
theorem C1_round_trip (m : MeanNormalization) (s : MinMaxScaler) (M : Mat)
    (hwf : ∀ r ∈ M, r.length = (M.headD []).length)
    (hcols : ∀ r ∈ M, r ≠ [])
    (hdeg : ∀ r ∈ M, rowMin r < rowMax r)
    (hs : s.scalemax ≠ s.scalemin) :
    ((m.Transform M).1.InverseTransform (m.Transform M).2).2 = M ∧
    ((s.Transform M).1.InverseTransform (s.Transform M).2).2 = M := by
  constructor
  · show invRowsMean (m.Transform M).1.itemMean (m.Transform M).1.scale
      (m.Transform M).2 = M
    have hmean : (m.Transform M).1.itemMean = M.map rowMean := rfl
    rw [hmean, meanN_scale_eq, meanN_out_eq]
    exact invRowsMean_map rowMean _ meanRowT M (fun r _ => meanRowT_inv r)
  · show invRowsMinMax (s.Transform M).1.scalemin (s.Transform M).1.itemMin
      (s.Transform M).1.scale (s.Transform M).2 = M
    have hmin : (s.Transform M).1.itemMin = M.map rowMin := rfl
    have hsmin : (s.Transform M).1.scalemin = s.scalemin := rfl
    rw [hmin, hsmin, minmax_scale_eq, minmax_out_eq]
    exact invRowsMinMax_map s.scalemin rowMin _ _ M
      (fun r _ => minmaxRowT_inv s.scalemin s.scalemax r)

theorem C1_round_trip_witness :
    ((MeanNormalization.init.Transform [[(2:ℚ), 4], [1, 3]]).1.InverseTransform
        (MeanNormalization.init.Transform [[(2:ℚ), 4], [1, 3]]).2).2
      = [[(2:ℚ), 4], [1, 3]] ∧
    (((MinMaxScaler.init 0 1).Transform [[(2:ℚ), 4], [1, 3]]).1.InverseTransform
        ((MinMaxScaler.init 0 1).Transform [[(2:ℚ), 4], [1, 3]]).2).2
      = [[(2:ℚ), 4], [1, 3]] :=
  C1_round_trip MeanNormalization.init (MinMaxScaler.init 0 1) [[(2:ℚ), 4], [1, 3]]
    (by simp)
    (by simp)
    (by norm_num [List.forall_mem_cons, rowMin, rowMax, min_def, max_def])
    (by norm_num [MinMaxScaler.init])

/-- C6 counterexample: the claim's mechanism part fails on the program for
`MinMaxScaler`: under double arithmetic a zero-natural-range feature (here the
constant row [5,5]) gets the scale entry +inf — the double division returns
an infinity that the `scale(i) == 0` guard leaves unchanged — not the claimed
replacement by 1. -/
theorem C6_scale_counterexample :
    ((MinMaxScalerFP.init (FP.finite 0) (FP.finite 1)).Transform
        [[FP.finite 5, FP.finite 5]]).1.scale = [FP.inf] ∧
    FP.inf ≠ FP.finite 1 := by
  constructor
  · norm_num [MinMaxScalerFP.Transform, MinMaxScalerFP.init, rowMinFP, rowMaxFP,
      minFP, maxFP, FP.blt, fixZerosFP, fixZero1FP, FP.div, FP.sub, FP.add, FP.neg,
      FP.mul, FP.inf_eq_finite_iff, FP.nan_eq_finite_iff, FP.finite_eq_finite_iff]
  · rw [Ne, FP.inf_eq_finite_iff]
    exact not_false

/-- C6 (amended): after any call to `Transform` the stored scale vector
contains no zero entries — a computed entry equal to 0 is replaced by 1 — so
the divisions of `Transform` and `InverseTransform` never divide by a stored
zero.  This holds for `MeanNormalization` and exact-arithmetic `MinMaxScaler`,
and equally for `MinMaxScaler` evaluated at IEEE binary64 semantics.  For
`MeanNormalization` the zero-natural-range features are exactly the replaced
ones: a row with min equal to max gets the scale entry 1 (its scale is
computed by subtraction, exact in doubles too); for `MinMaxScaler` under
double arithmetic a zero-range feature instead stores an infinite entry
(nonzero, but not 1, as the counterexample shows). -/
theorem C6_scale_nonzero (m : MeanNormalization) (s : MinMaxScaler)
    (t : MinMaxScalerFP) (M N : Mat) (P : List (List FP)) (i : ℕ) :
    (∀ v ∈ (m.Transform M).1.Scale, v ≠ 0) ∧
    (∀ v ∈ (s.Transform N).1.Scale, v ≠ 0) ∧
    (∀ v ∈ (t.Transform P).1.scale, v ≠ FP.finite 0) ∧
    (i < M.length → rowMin (M.getD i []) = rowMax (M.getD i []) →
      (m.Transform M).1.Scale.getD i 0 = 1) := by
  refine ⟨?_, ?_, ?_, ?_⟩
  · intro v hv
    rw [MeanNormalization.Scale, meanN_scale_eq] at hv
    rcases List.mem_map.mp hv with ⟨r, _, hr⟩
    exact hr ▸ fixZero1_ne_zero _
  · intro v hv
    rw [MinMaxScaler.Scale, minmax_scale_eq] at hv
    rcases List.mem_map.mp hv with ⟨r, _, hr⟩
    exact hr ▸ fixZero1_ne_zero _
  · intro v hv
    have hsc : (t.Transform P).1.scale = fixZerosFP (List.zipWith
        (fun a b => FP.div (FP.sub t.scalemax t.scalemin) (FP.sub a b))
        (P.map rowMaxFP) (P.map rowMinFP)) := rfl
    rw [hsc, fixZerosFP] at hv
    rcases List.mem_map.mp hv with ⟨w, _, hw⟩
    exact hw ▸ fixZero1FP_ne_zero w
  · intro hi hdeg
    rw [MeanNormalization.Scale, meanN_scale_eq, getD_map_lt _ M i hi 0 [],
      sub_eq_zero.mpr hdeg.symm, fixZero1_zero]

theorem C6_scale_nonzero_witness :
    ((1:ℚ) ∈ (MeanNormalization.init.Transform [[(7:ℚ), 7]]).1.Scale ∧ (1:ℚ) ≠ 0) ∧
    ((1/2:ℚ) ∈ ((MinMaxScaler.init 0 1).Transform [[(2:ℚ), 4]]).1.Scale ∧
      (1/2:ℚ) ≠ 0) ∧
    (FP.inf ∈ ((MinMaxScalerFP.init (FP.finite 0) (FP.finite 1)).Transform
        [[FP.finite 5, FP.finite 5]]).1.scale ∧ FP.inf ≠ FP.finite 0) ∧
    ((0:ℕ) < ([[(7:ℚ), 7]] : Mat).length ∧
      rowMin (([[(7:ℚ), 7]] : Mat).getD 0 [])
        = rowMax (([[(7:ℚ), 7]] : Mat).getD 0 []) ∧
      (MeanNormalization.init.Transform [[(7:ℚ), 7]]).1.Scale.getD 0 0 = 1) := by
  have h := C6_scale_nonzero MeanNormalization.init (MinMaxScaler.init 0 1)
    (MinMaxScalerFP.init (FP.finite 0) (FP.finite 1)) [[(7:ℚ), 7]] [[(2:ℚ), 4]]
    [[FP.finite 5, FP.finite 5]] 0
  have hmem1 : (1:ℚ) ∈ (MeanNormalization.init.Transform [[(7:ℚ), 7]]).1.Scale := by
    rw [MeanNormalization.Scale, meanN_scale_eq]
    norm_num [rowMin, rowMax, fixZero1, min_def, max_def]
  have hmem2 : (1/2:ℚ) ∈ ((MinMaxScaler.init 0 1).Transform [[(2:ℚ), 4]]).1.Scale := by
    rw [MinMaxScaler.Scale, minmax_scale_eq]
    norm_num [rowMin, rowMax, fixZero1, min_def, max_def, MinMaxScaler.init]
  have hmem3 : FP.inf ∈ ((MinMaxScalerFP.init (FP.finite 0) (FP.finite 1)).Transform
      [[FP.finite 5, FP.finite 5]]).1.scale := by
    norm_num [MinMaxScalerFP.Transform, MinMaxScalerFP.init, rowMinFP, rowMaxFP,
      minFP, maxFP, FP.blt, fixZerosFP, fixZero1FP, FP.div, FP.sub, FP.add, FP.neg,
      FP.mul, FP.inf_eq_finite_iff, FP.nan_eq_finite_iff, FP.finite_eq_finite_iff]
  exact ⟨⟨hmem1, h.1 1 hmem1⟩, ⟨hmem2, h.2.1 (1/2) hmem2⟩,
    ⟨hmem3, h.2.2.1 FP.inf hmem3⟩,
    by simp, by norm_num [rowMin, rowMax, min_def, max_def],
    h.2.2.2 (by simp) (by norm_num [rowMin, rowMax, min_def, max_def])⟩

/-- C7: for every matrix whose rows all have at least one column, every row of
the output of `MeanNormalization::Transform` has arithmetic mean zero. -/
theorem C7_centering (m : MeanNormalization) (M : Mat) (hM : ∀ r ∈ M, r ≠ []) :
    ∀ row ∈ (m.Transform M).2, rowMean row = 0 := by
  intro row hrow
  rw [meanN_out_eq] at hrow
  rcases List.mem_map.mp hrow with ⟨r, _, hr⟩
  exact hr ▸ rowMean_meanRowT r

theorem C7_centering_witness :
    (∀ r ∈ [[(2:ℚ), 4, 6]], r ≠ []) ∧
    (∀ row ∈ (MeanNormalization.init.Transform [[(2:ℚ), 4, 6]]).2, rowMean row = 0) :=
  ⟨by simp, C7_centering MeanNormalization.init [[(2:ℚ), 4, 6]] (by simp)⟩

/-- C8: `Transform` and `InverseTransform` of both classes produce an output
with exactly the row count of the input and, row by row, the column count of
the input. -/
theorem C8_dimensions (m : MeanNormalization) (s : MinMaxScaler) (M : Mat) (i : ℕ) :
    ((m.Transform M).2.length = M.length ∧
      ((m.Transform M).2.getD i []).length = ((M.getD i []).length)) ∧
    ((s.Transform M).2.length = M.length ∧
      ((s.Transform M).2.getD i []).length = ((M.getD i []).length)) ∧
    ((m.InverseTransform M).2.length = M.length ∧
      ((m.InverseTransform M).2.getD i []).length = ((M.getD i []).length)) ∧
    ((s.InverseTransform M).2.length = M.length ∧
      ((s.InverseTransform M).2.getD i []).length = ((M.getD i []).length)) := by
  refine ⟨⟨?_, ?_⟩, ⟨?_, ?_⟩, ⟨?_, ?_⟩, ⟨?_, ?_⟩⟩
  · rw [meanN_out_eq]
    exact List.length_map M meanRowT
  · rw [meanN_out_eq]
    exact getD_map_length meanRowT M (fun r => List.length_map r _) i
  · rw [minmax_out_eq]
    exact List.length_map M _
  · rw [minmax_out_eq]
    exact getD_map_length _ M (fun r => List.length_map r _) i
  · exact invRowsMean_length m.itemMean m.scale M
  · exact invRowsMean_getD_length m.itemMean m.scale M i
  · exact invRowsMinMax_length s.scalemin s.itemMin s.scale M
  · exact invRowsMinMax_getD_length s.scalemin s.itemMin s.scale M i

/-- C10: `InverseTransform` of either class leaves the whole fitted state
unchanged; every accessor returns the same value before and after the call. -/
theorem C10_inverse_frame (m : MeanNormalization) (s : MinMaxScaler) (M N : Mat) :
    ((m.InverseTransform M).1.ItemMean = m.ItemMean ∧
     (m.InverseTransform M).1.ItemMin = m.ItemMin ∧
     (m.InverseTransform M).1.ItemMax = m.ItemMax ∧
     (m.InverseTransform M).1.Scale = m.Scale) ∧
    ((s.InverseTransform N).1.ItemMin = s.ItemMin ∧
     (s.InverseTransform N).1.ItemMax = s.ItemMax ∧
     (s.InverseTransform N).1.Scale = s.Scale ∧
     (s.InverseTransform N).1.ScaleMin = s.ScaleMin ∧
     (s.InverseTransform N).1.ScaleMax = s.ScaleMax) :=
  ⟨⟨rfl, rfl, rfl, rfl⟩, ⟨rfl, rfl, rfl, rfl, rfl⟩⟩

/-- C2 counterexample, three concrete failures of the unconditional claim,
each forcing one hypothesis of the amendment.  With range [0,0] on the row
[2,4,6] the computed scale is 0/4 = 0 exactly (in rational and in binary64
arithmetic alike), the guard rewrites it to 1, and the output [0,2,4] has
maximum 4 and the entry 4 outside [0,0].  With the reversed range [1,0] the
scale is -1/4 (again exact in binary64: all values are dyadic) and the output
[1,1/2,0] has minimum 0, not scalemin = 1.  And on a degenerate row, evaluated
at IEEE binary64 semantics, the constant matrix [[5,5,5]] with the default
range [0,1] produces the NaN row, whose maximum is not scalemax. -/
theorem C2_range_counterexample :
    (((MinMaxScaler.init 0 0).Transform [[(2:ℚ), 4, 6]]).2 = [[0, 2, 4]] ∧
      rowMax [(0:ℚ), 2, 4] ≠ (MinMaxScaler.init 0 0).ScaleMax ∧
      ¬ ((4:ℚ) ≤ (MinMaxScaler.init 0 0).ScaleMax)) ∧
    (((MinMaxScaler.init 1 0).Transform [[(2:ℚ), 4, 6]]).2 = [[1, 1/2, 0]] ∧
      rowMin [(1:ℚ), 1/2, 0] ≠ (MinMaxScaler.init 1 0).ScaleMin) ∧
    (((MinMaxScalerFP.init (FP.finite 0) (FP.finite 1)).Transform
        [[FP.finite 5, FP.finite 5, FP.finite 5]]).2 = [[FP.nan, FP.nan, FP.nan]] ∧
      rowMaxFP (((MinMaxScalerFP.init (FP.finite 0) (FP.finite 1)).Transform
          [[FP.finite 5, FP.finite 5, FP.finite 5]]).2.getD 0 [])
        ≠ (MinMaxScalerFP.init (FP.finite 0) (FP.finite 1)).scalemax) := by
  refine ⟨⟨?_, ?_, ?_⟩, ⟨?_, ?_⟩, ⟨?_, ?_⟩⟩
  · norm_num [MinMaxScaler.Transform, MinMaxScaler.init, rowMin, rowMax, fixZeros,
      fixZero1, min_def, max_def]
  · norm_num [rowMax, max_def, MinMaxScaler.ScaleMax, MinMaxScaler.init]
  · norm_num [MinMaxScaler.ScaleMax, MinMaxScaler.init]
  · norm_num [MinMaxScaler.Transform, MinMaxScaler.init, rowMin, rowMax, fixZeros,
      fixZero1, min_def, max_def]
  · norm_num [rowMin, min_def, MinMaxScaler.ScaleMin, MinMaxScaler.init]
  · norm_num [MinMaxScalerFP.Transform, MinMaxScalerFP.init, rowMinFP, rowMaxFP,
      minFP, maxFP, FP.blt, fixZerosFP, fixZero1FP, FP.div, FP.sub, FP.add, FP.neg,
      FP.mul, FP.inf_eq_finite_iff, FP.nan_eq_finite_iff, FP.finite_eq_finite_iff]
  · norm_num [MinMaxScalerFP.Transform, MinMaxScalerFP.init, rowMinFP, rowMaxFP,
      minFP, maxFP, FP.blt, fixZerosFP, fixZero1FP, FP.div, FP.sub, FP.add, FP.neg,
      FP.mul, FP.inf_eq_finite_iff, FP.nan_eq_finite_iff, FP.finite_eq_finite_iff]

/-- C2 (amended): for a `MinMaxScaler` whose configured range satisfies
`scalemin < scalemax` and a matrix whose every row has `rowMin` strictly below
`rowMax`, every entry of the transformed matrix lies in
`[scalemin, scalemax]`, and the minimum and maximum of every transformed row
are exactly `scalemin` and `scalemax`. -/
theorem C2_range_amended (s : MinMaxScaler) (M : Mat)
    (hs : s.scalemin < s.scalemax) (hM : ∀ r ∈ M, rowMin r < rowMax r) :
    (∀ row ∈ (s.Transform M).2, ∀ x ∈ row,
      s.ScaleMin ≤ x ∧ x ≤ s.ScaleMax) ∧
    (∀ row ∈ (s.Transform M).2,
      rowMin row = s.ScaleMin ∧ rowMax row = s.ScaleMax) := by
  constructor
  · intro row hrow x hx
    rw [minmax_out_eq] at hrow
    rcases List.mem_map.mp hrow with ⟨r, hrM, hr⟩
    exact (minmaxRowT_range s.scalemin s.scalemax r hs (hM r hrM)).1 x (hr ▸ hx)
  · intro row hrow
    rw [minmax_out_eq] at hrow
    rcases List.mem_map.mp hrow with ⟨r, hrM, hr⟩
    have hrange := minmaxRowT_range s.scalemin s.scalemax r hs (hM r hrM)
    exact hr ▸ ⟨hrange.2.1, hrange.2.2⟩

theorem C2_range_witness :
    ((MinMaxScaler.init 0 1).scalemin < (MinMaxScaler.init 0 1).scalemax) ∧
    (∀ r ∈ [[(2:ℚ), 4, 6]], rowMin r < rowMax r) ∧
    ((∀ row ∈ ((MinMaxScaler.init 0 1).Transform [[(2:ℚ), 4, 6]]).2, ∀ x ∈ row,
        (MinMaxScaler.init 0 1).ScaleMin ≤ x ∧ x ≤ (MinMaxScaler.init 0 1).ScaleMax) ∧
     (∀ row ∈ ((MinMaxScaler.init 0 1).Transform [[(2:ℚ), 4, 6]]).2,
        rowMin row = (MinMaxScaler.init 0 1).ScaleMin ∧
        rowMax row = (MinMaxScaler.init 0 1).ScaleMax)) :=
  ⟨by norm_num [MinMaxScaler.init],
   by norm_num [List.forall_mem_cons, rowMin, rowMax, min_def, max_def],
   C2_range_amended (MinMaxScaler.init 0 1) [[(2:ℚ), 4, 6]]
     (by norm_num [MinMaxScaler.init])
     (by norm_num [List.forall_mem_cons, rowMin, rowMax, min_def, max_def])⟩

/-- C3: `MinMaxScaler::Transform` stores the row extrema, stores the scale
`(scalemax - scalemin) / (max_i - min_i)` with zero entries forced to 1, and
writes `output(i, j) = scale_i * input(i, j) + scalemin - min_i * scale_i`;
with the default range [0,1] the row [2,4,6] maps to [0, 1/2, 1]. -/
theorem C3_minmax_formula (s : MinMaxScaler) (M : Mat) (i j : ℕ)
    (hi : i < M.length) (hj : j < (M.getD i []).length) :
    ((s.Transform M).1.ItemMin.getD i 0 = rowMin (M.getD i []) ∧
     (s.Transform M).1.ItemMax.getD i 0 = rowMax (M.getD i []) ∧
     (s.Transform M).1.Scale.getD i 0
       = fixZero1 ((s.scalemax - s.scalemin)
           / (rowMax (M.getD i []) - rowMin (M.getD i []))) ∧
     ((s.Transform M).2.getD i []).getD j 0
       = (s.Transform M).1.Scale.getD i 0 * ((M.getD i []).getD j 0)
         + s.scalemin - rowMin (M.getD i []) * (s.Transform M).1.Scale.getD i 0) ∧
    ((MinMaxScaler.init 0 1).Transform [[(2:ℚ), 4, 6]]).2 = [[0, 1/2, 1]] := by
  have h1 : (s.Transform M).1.ItemMin.getD i 0 = rowMin (M.getD i []) := by
    show (M.map rowMin).getD i 0 = _
    exact getD_map_lt rowMin M i hi 0 []
  have h2 : (s.Transform M).1.ItemMax.getD i 0 = rowMax (M.getD i []) := by
    show (M.map rowMax).getD i 0 = _
    exact getD_map_lt rowMax M i hi 0 []
  have h3 : (s.Transform M).1.Scale.getD i 0
      = fixZero1 ((s.scalemax - s.scalemin)
          / (rowMax (M.getD i []) - rowMin (M.getD i []))) := by
    rw [MinMaxScaler.Scale, minmax_scale_eq]
    exact getD_map_lt _ M i hi 0 []
  have h4 : ((s.Transform M).2.getD i []).getD j 0
      = (s.Transform M).1.Scale.getD i 0 * ((M.getD i []).getD j 0)
        + s.scalemin - rowMin (M.getD i []) * (s.Transform M).1.Scale.getD i 0 := by
    rw [h3, minmax_out_eq, getD_map_lt (minmaxRowT s.scalemin s.scalemax) M i hi [] [],
      minmaxRowT, getD_map_lt _ (M.getD i []) j hj 0 0]
  refine ⟨⟨h1, h2, h3, h4⟩, ?_⟩
  norm_num [MinMaxScaler.Transform, MinMaxScaler.init, rowMin, rowMax, fixZeros,
    fixZero1, min_def, max_def]

theorem C3_minmax_formula_witness :
    (0 < ([[(2:ℚ), 4, 6]] : Mat).length) ∧
    (1 < (([[(2:ℚ), 4, 6]] : Mat).getD 0 []).length) ∧
    (((MinMaxScaler.init 0 1).Transform [[(2:ℚ), 4, 6]]).2.getD 0 []).getD 1 0
      = ((MinMaxScaler.init 0 1).Transform [[(2:ℚ), 4, 6]]).1.Scale.getD 0 0
          * (([[(2:ℚ), 4, 6]] : Mat).getD 0 []).getD 1 0
        + (MinMaxScaler.init 0 1).scalemin
        - rowMin (([[(2:ℚ), 4, 6]] : Mat).getD 0 [])
          * ((MinMaxScaler.init 0 1).Transform [[(2:ℚ), 4, 6]]).1.Scale.getD 0 0 :=
  ⟨by simp, by simp,
   ((C3_minmax_formula (MinMaxScaler.init 0 1) [[(2:ℚ), 4, 6]] 0 1
      (by simp) (by simp)).1.2.2.2)⟩

/-- C4: `MeanNormalization::Transform` stores the row mean and extrema, stores
the scale `max_i - min_i` with zero entries forced to 1, and writes
`output(i, j) = (input(i, j) - mean_i) / scale_i`; the row [2,4,6] maps to
[-1/2, 0, 1/2]. -/
theorem C4_meannorm_formula (m : MeanNormalization) (M : Mat) (i j : ℕ)
    (hi : i < M.length) (hj : j < (M.getD i []).length) :
    ((m.Transform M).1.ItemMean.getD i 0 = rowMean (M.getD i []) ∧
     (m.Transform M).1.ItemMin.getD i 0 = rowMin (M.getD i []) ∧
     (m.Transform M).1.ItemMax.getD i 0 = rowMax (M.getD i []) ∧
     (m.Transform M).1.Scale.getD i 0
       = fixZero1 (rowMax (M.getD i []) - rowMin (M.getD i [])) ∧
     ((m.Transform M).2.getD i []).getD j 0
       = (((M.getD i []).getD j 0) - (m.Transform M).1.ItemMean.getD i 0)
           / (m.Transform M).1.Scale.getD i 0) ∧
    (MeanNormalization.init.Transform [[(2:ℚ), 4, 6]]).2 = [[-(1/2), 0, 1/2]] := by
  have h1 : (m.Transform M).1.ItemMean.getD i 0 = rowMean (M.getD i []) := by
    show (M.map rowMean).getD i 0 = _
    exact getD_map_lt rowMean M i hi 0 []
  have h2 : (m.Transform M).1.ItemMin.getD i 0 = rowMin (M.getD i []) := by
    show (M.map rowMin).getD i 0 = _
    exact getD_map_lt rowMin M i hi 0 []
  have h3 : (m.Transform M).1.ItemMax.getD i 0 = rowMax (M.getD i []) := by
    show (M.map rowMax).getD i 0 = _
    exact getD_map_lt rowMax M i hi 0 []
  have h4 : (m.Transform M).1.Scale.getD i 0
      = fixZero1 (rowMax (M.getD i []) - rowMin (M.getD i [])) := by
    rw [MeanNormalization.Scale, meanN_scale_eq]
    exact getD_map_lt _ M i hi 0 []
  have h5 : ((m.Transform M).2.getD i []).getD j 0
      = (((M.getD i []).getD j 0) - (m.Transform M).1.ItemMean.getD i 0)
          / (m.Transform M).1.Scale.getD i 0 := by
    rw [h4, h1, meanN_out_eq, getD_map_lt meanRowT M i hi [] [],
      meanRowT, getD_map_lt _ (M.getD i []) j hj 0 0]
  refine ⟨⟨h1, h2, h3, h4, h5⟩, ?_⟩
  norm_num [MeanNormalization.Transform, MeanNormalization.init, rowMin, rowMax,
    rowMean, fixZeros, fixZero1, min_def, max_def]

theorem C4_meannorm_formula_witness :
    (0 < ([[(2:ℚ), 4, 6]] : Mat).length) ∧
    (1 < (([[(2:ℚ), 4, 6]] : Mat).getD 0 []).length) ∧
    ((MeanNormalization.init.Transform [[(2:ℚ), 4, 6]]).2.getD 0 []).getD 1 0
      = ((([[(2:ℚ), 4, 6]] : Mat).getD 0 []).getD 1 0
          - (MeanNormalization.init.Transform [[(2:ℚ), 4, 6]]).1.ItemMean.getD 0 0)
        / (MeanNormalization.init.Transform [[(2:ℚ), 4, 6]]).1.Scale.getD 0 0 :=
  ⟨by simp, by simp,
   ((C4_meannorm_formula MeanNormalization.init [[(2:ℚ), 4, 6]] 0 1
      (by simp) (by simp)).1.2.2.2.2)⟩

/-- C5: the program lacks the claimed `MinMaxScaler` behavior.  Evaluated at
IEEE binary64 semantics on the constant matrix [[5,5,5]] with the default
range [0,1], `MinMaxScaler::Transform` computes scale(0) = (1-0)/(5-5) = +inf
by dividing before its zero guard runs; +inf is not 0, so the guard never
rewrites it to 1, and every output entry is inf*5 + 0 - 5*inf = NaN rather
than the 0 the claim (and the stated degenerate-range policy that the guard
was written for, which does work for the subtraction-computed scale of
`MeanNormalization`) prescribes. -/
theorem C5_degenerate_ieee :
    ((MinMaxScalerFP.init (FP.finite 0) (FP.finite 1)).Transform
        [[FP.finite 5, FP.finite 5, FP.finite 5]]).1.scale = [FP.inf] ∧
    FP.inf ≠ FP.finite 1 ∧
    ((MinMaxScalerFP.init (FP.finite 0) (FP.finite 1)).Transform
        [[FP.finite 5, FP.finite 5, FP.finite 5]]).2 = [[FP.nan, FP.nan, FP.nan]] ∧
    FP.nan ≠ FP.finite 0 := by
  refine ⟨?_, ?_, ?_, ?_⟩
  · norm_num [MinMaxScalerFP.Transform, MinMaxScalerFP.init, rowMinFP, rowMaxFP,
      minFP, maxFP, FP.blt, fixZerosFP, fixZero1FP, FP.div, FP.sub, FP.add, FP.neg,
      FP.mul, FP.inf_eq_finite_iff, FP.nan_eq_finite_iff, FP.finite_eq_finite_iff]
  · rw [Ne, FP.inf_eq_finite_iff]
    exact not_false
  · norm_num [MinMaxScalerFP.Transform, MinMaxScalerFP.init, rowMinFP, rowMaxFP,
      minFP, maxFP, FP.blt, fixZerosFP, fixZero1FP, FP.div, FP.sub, FP.add, FP.neg,
      FP.mul, FP.inf_eq_finite_iff, FP.nan_eq_finite_iff, FP.finite_eq_finite_iff]
  · rw [Ne, FP.nan_eq_finite_iff]
    exact not_false

/-- C9: immediately after `Transform`, the accessor vectors hold exactly the
per-feature statistics used by that call: the stored mean/min/max entries are
the row statistics of the input, the stored scale entry is the zero-fixed
scale, and each output row is the input row mapped through the formula built
from those accessor values. -/
theorem C9_accessor_consistency (m : MeanNormalization) (s : MinMaxScaler) (M : Mat)
    (i : ℕ) (hi : i < M.length) :
    ((m.Transform M).1.ItemMean.getD i 0 = rowMean (M.getD i []) ∧
     (m.Transform M).1.ItemMin.getD i 0 = rowMin (M.getD i []) ∧
     (m.Transform M).1.ItemMax.getD i 0 = rowMax (M.getD i []) ∧
     (m.Transform M).1.Scale.getD i 0
       = fixZero1 (rowMax (M.getD i []) - rowMin (M.getD i [])) ∧
     (m.Transform M).2.getD i []
       = (M.getD i []).map (fun x =>
           (x - (m.Transform M).1.ItemMean.getD i 0)
             / (m.Transform M).1.Scale.getD i 0)) ∧
    ((s.Transform M).1.ItemMin.getD i 0 = rowMin (M.getD i []) ∧
     (s.Transform M).1.ItemMax.getD i 0 = rowMax (M.getD i []) ∧
     (s.Transform M).1.Scale.getD i 0
       = fixZero1 ((s.scalemax - s.scalemin)
           / (rowMax (M.getD i []) - rowMin (M.getD i []))) ∧
     (s.Transform M).2.getD i []
       = (M.getD i []).map (fun x =>
           (s.Transform M).1.Scale.getD i 0 * x + s.ScaleMin
             - (s.Transform M).1.ItemMin.getD i 0
               * (s.Transform M).1.Scale.getD i 0)) := by
  have hmean : (m.Transform M).1.ItemMean.getD i 0 = rowMean (M.getD i []) := by
    show (M.map rowMean).getD i 0 = _
    exact getD_map_lt rowMean M i hi 0 []
  have hmmin : (m.Transform M).1.ItemMin.getD i 0 = rowMin (M.getD i []) := by
    show (M.map rowMin).getD i 0 = _
    exact getD_map_lt rowMin M i hi 0 []
  have hmmax : (m.Transform M).1.ItemMax.getD i 0 = rowMax (M.getD i []) := by
    show (M.map rowMax).getD i 0 = _
    exact getD_map_lt rowMax M i hi 0 []
  have hmscale : (m.Transform M).1.Scale.getD i 0
      = fixZero1 (rowMax (M.getD i []) - rowMin (M.getD i [])) := by
    rw [MeanNormalization.Scale, meanN_scale_eq]
    exact getD_map_lt _ M i hi 0 []
  have hsmin : (s.Transform M).1.ItemMin.getD i 0 = rowMin (M.getD i []) := by
    show (M.map rowMin).getD i 0 = _
    exact getD_map_lt rowMin M i hi 0 []
  have hsmax : (s.Transform M).1.ItemMax.getD i 0 = rowMax (M.getD i []) := by
    show (M.map rowMax).getD i 0 = _
    exact getD_map_lt rowMax M i hi 0 []
  have hsscale : (s.Transform M).1.Scale.getD i 0
      = fixZero1 ((s.scalemax - s.scalemin)
          / (rowMax (M.getD i []) - rowMin (M.getD i []))) := by
    rw [MinMaxScaler.Scale, minmax_scale_eq]
    exact getD_map_lt _ M i hi 0 []
  refine ⟨⟨hmean, hmmin, hmmax, hmscale, ?_⟩, ⟨hsmin, hsmax, hsscale, ?_⟩⟩
  · rw [hmean, hmscale, meanN_out_eq, getD_map_lt meanRowT M i hi [] []]
    rfl
  · rw [hsmin, hsscale, minmax_out_eq,
      getD_map_lt (minmaxRowT s.scalemin s.scalemax) M i hi [] []]
    rfl

theorem C9_accessor_consistency_witness :
    (0 < ([[(2:ℚ), 4, 6]] : Mat).length) ∧
    (MeanNormalization.init.Transform [[(2:ℚ), 4, 6]]).1.ItemMean.getD 0 0
      = rowMean (([[(2:ℚ), 4, 6]] : Mat).getD 0 []) ∧
    ((MinMaxScaler.init 0 1).Transform [[(2:ℚ), 4, 6]]).1.Scale.getD 0 0
      = fixZero1 (((MinMaxScaler.init 0 1).scalemax - (MinMaxScaler.init 0 1).scalemin)
          / (rowMax (([[(2:ℚ), 4, 6]] : Mat).getD 0 [])
              - rowMin (([[(2:ℚ), 4, 6]] : Mat).getD 0 []))) :=
  ⟨by simp,
   (C9_accessor_consistency MeanNormalization.init (MinMaxScaler.init 0 1)
      [[(2:ℚ), 4, 6]] 0 (by simp)).1.1,
   (C9_accessor_consistency MeanNormalization.init (MinMaxScaler.init 0 1)
      [[(2:ℚ), 4, 6]] 0 (by simp)).2.2.2.1⟩

end data

end mlpack
